import Mathlib

/-!
Shallow embedding of `src/submissions/202403480/assignment4/discord_receipt_collector.py`.

Text is modelled as `List Char`. Python regular-expression behaviour is embedded
by bespoke backtracking matchers that follow the exact patterns appearing in the
source (`guess_amount`, `guess_datetime`), with Python's leftmost-match /
greedy-with-backtracking semantics. Character classes (`\s`, `\d`, `\w`) are
modelled on code points: `\s` as the Unicode whitespace set Python's `re` uses,
`\d` as ASCII digits, and `\w` for the alphabets that actually occur in this
program's data (ASCII alphanumerics, underscore, and Hangul). `str.lower` is
modelled on ASCII (the only cased letters in the program's tables).
-/

namespace Receipt

abbrev Str := List Char

/-- Coerce a Lean string literal to the `List Char` text representation. -/
def str (s : String) : Str := s.data

/-- Python `re` whitespace class `\s` for `str` patterns, by code point. -/
def isSpaceC (c : Char) : Bool :=
  let n := c.toNat
  n = 32 || n = 9 || n = 10 || n = 13 || n = 11 || n = 12 ||
  (28 ≤ n && n ≤ 31) || n = 133 || n = 160 || n = 0x1680 ||
  (0x2000 ≤ n && n ≤ 0x200a) || n = 0x2028 || n = 0x2029 ||
  n = 0x202f || n = 0x205f || n = 0x3000

/-- ASCII digit class `\d`. -/
def isDigitC (c : Char) : Bool := 48 ≤ c.toNat && c.toNat ≤ 57

/-- Numeric value of a digit character. -/
def dval (c : Char) : Nat := c.toNat - 48

/-- Word-character class `\w` (for `\b` boundaries): ASCII alphanumerics,
underscore, and the Hangul ranges occurring in receipt text. -/
def isWordC (c : Char) : Bool :=
  let n := c.toNat
  (48 ≤ n && n ≤ 57) || (65 ≤ n && n ≤ 90) || (97 ≤ n && n ≤ 122) ||
  n = 95 || (0x1100 ≤ n && n ≤ 0x11FF) || (0x3130 ≤ n && n ≤ 0x318F) ||
  (0xAC00 ≤ n && n ≤ 0xD7A3)

/-- Python `str.lower` restricted to ASCII letters (the only cased characters
in this program's patterns and keyword tables). -/
def toLowerPy (c : Char) : Char :=
  if 65 ≤ c.toNat && c.toNat ≤ 90 then Char.ofNat (c.toNat + 32) else c

/-- List-wise lowering, `s.lower()`. -/
def lowerAll (l : Str) : Str := l.map toLowerPy

/-- Embedding of `re.sub(r"\s+", " ", s)`: every maximal whitespace run becomes
a single space. -/
def collapse : Str → Str
  | [] => []
  | [c] => if isSpaceC c then [' '] else [c]
  | c :: d :: rest =>
    if isSpaceC c then
      if isSpaceC d then collapse (d :: rest)
      else ' ' :: collapse (d :: rest)
    else c :: collapse (d :: rest)

/-- Embedding of Python `str.strip()`: drop whitespace from both ends. -/
def stripStr (l : Str) : Str :=
  ((l.dropWhile isSpaceC).reverse.dropWhile isSpaceC).reverse

/-- Embedding of `normalize` (line 76): `re.sub(r"\s+", " ", s).strip().lower()`. -/
def normalizeStr (l : Str) : Str := lowerAll (stripStr (collapse l))

/-! ### Amount extractor: `guess_amount` (lines 79-89)

Pattern: `(\d{1,3}(?:[,\s]\d{3})+|\d{4,})(?=\s*(?:원|krw|₩)?\b)` with
`re.IGNORECASE`, iterated with `re.finditer`; every match's digits are parsed
as an integer candidate. -/

/-- Is the head of the remaining text a word character (used for `\b`). -/
def nextWord : Str → Bool
  | [] => false
  | c :: _ => isWordC c

/-- Matches the optional currency marker `(?:원|krw|₩)` at the head of `l` and
checks the trailing word boundary `\b` after it.  `원` and `krw` end in a word
character, `₩` does not. -/
def markerB (l : Str) : Bool :=
  match l with
  | [] => false
  | c :: rest =>
    (c = '원' && !nextWord rest) ||
    (c = '₩' && nextWord rest) ||
    (match rest with
     | c2 :: c3 :: rest2 =>
       toLowerPy c = 'k' && toLowerPy c2 = 'r' && toLowerPy c3 = 'w' &&
       !nextWord rest2
     | _ => false)

/-- Lookahead `(?=\s*(?:원|krw|₩)?\b)` evaluated at a position whose previous
character has word-status `prevW`; tries every amount of consumed whitespace
and the marker both present and absent (existence is all a lookahead needs). -/
def lookA : Bool → Str → Bool
  | prevW, [] => prevW
  | prevW, c :: rest =>
    (prevW != isWordC c) || markerB (c :: rest) ||
    (isSpaceC c && lookA (isWordC c) rest)

/-- Length of the maximal run of leading ASCII digits. -/
def digitRun (l : Str) : Nat := (l.takeWhile isDigitC).length

/-- Thousands separator class `[,\s]`. -/
def isSepA (c : Char) : Bool := c = ',' || isSpaceC c

/-- Maximal repetition count of `(?:[,\s]\d{3})` groups at the head of `l`. -/
def groupsLen : Str → Nat
  | c :: d1 :: d2 :: d3 :: rest =>
    if isSepA c && isDigitC d1 && isDigitC d2 && isDigitC d3 then
      1 + groupsLen rest
    else 0
  | _ => 0

/-- Backtracking over the `+` repetition of `(?:[,\s]\d{3})`, greedily from
`k` groups down to 1, taking the first count whose trailing lookahead
succeeds (the previous character is always a digit there). Returns the number
of characters the groups consume. -/
def tryKs (l : Str) : Nat → Option Nat
  | 0 => none
  | k + 1 =>
    if lookA true (l.drop (4 * (k + 1))) then some (4 * (k + 1))
    else tryKs l k

/-- Backtracking over `\d{1,3}` (greedy, from `f` digits down to 1) followed by
the separator groups; returns the total character length of alternative
`\d{1,3}(?:[,\s]\d{3})+` at the head of `l`, if it matches with the lookahead. -/
def tryF (l : Str) : Nat → Option Nat
  | 0 => none
  | f + 1 =>
    if f + 1 ≤ digitRun l then
      match tryKs (l.drop (f + 1)) (groupsLen (l.drop (f + 1))) with
      | some g => some (f + 1 + g)
      | none => tryF l f
    else tryF l f

/-- Alternative `\d{1,3}(?:[,\s]\d{3})+` with the lookahead, at the head of `l`. -/
def tryA (l : Str) : Option Nat := tryF l 3

/-- Backtracking over `\d{4,}` (greedy, from `n` digits down to 4) with the
lookahead; `n` starts at the digit-run length. -/
def tryB4 (l : Str) : Nat → Option Nat
  | 0 => none
  | n + 1 =>
    if 4 ≤ n + 1 && lookA true (l.drop (n + 1)) then some (n + 1)
    else tryB4 l n

/-- Alternative `\d{4,}` with the lookahead, at the head of `l`. -/
def tryB (l : Str) : Option Nat := tryB4 l (digitRun l)

/-- One attempt of the whole amount pattern at the head of `l` (ordered
alternation: the thousands-grouped branch first, then the 4+-digit branch);
returns the matched group-1 length. -/
def tryTok (l : Str) : Option Nat :=
  match tryA l with
  | some g => some g
  | none => tryB l

/-- Integer value of a matched token: strip every non-digit and read the rest,
`int(re.sub(r"[^\d]", "", m.group(1)))`. -/
def digitsVal (l : Str) : Nat :=
  (l.filter isDigitC).foldl (fun a c => a * 10 + dval c) 0

/-- Fuel-driven embedding of `re.finditer`: scan left to right, at each
position try the token; on a match record its value and resume after it. -/
def amountScanF : Nat → Str → List Nat
  | 0, _ => []
  | fuel + 1, l =>
    match l with
    | [] => []
    | _ :: rest =>
      match tryTok l with
      | some g => digitsVal (l.take g) :: amountScanF fuel (l.drop g)
      | none => amountScanF fuel rest

/-- Candidate list collected by the `re.finditer` loop of `guess_amount`. -/
def amountCandidates (l : Str) : List Nat := amountScanF l.length l

/-- Embedding of `guess_amount` (lines 79-89): prefer the max candidate
`>= 1000`, else the max of all candidates, else `None`. -/
def guessAmount (l : Str) : Option Nat :=
  let candidates := amountCandidates l
  let big := candidates.filter (fun v => 1000 ≤ v)
  match big with
  | _ :: _ => some (big.foldl max 0)
  | [] =>
    match candidates with
    | _ :: _ => some (candidates.foldl max 0)
    | [] => none

/-! ### Date/time extractor: `guess_datetime` (lines 91-124)

Date patterns, tried in order with `re.search` (leftmost match), stopping at
the first pattern that matches anywhere:
`(\d{4})[.\-\/](\d{1,2})[.\-\/](\d{1,2})` then
`(\d{2})[.\-\/](\d{1,2})[.\-\/](\d{1,2})`.
Time pattern, searched independently: `(\d{1,2}):(\d{2})(?::(\d{2}))?`. -/

/-- Date separator class `[.\-\/]`. -/
def isSepD (c : Char) : Bool := c = '.' || c = '-' || c = '/'

/-- Two-digit value. -/
def val2 (a b : Char) : Nat := 10 * dval a + dval b

/-- Four-digit value. -/
def val4 (a b c d : Char) : Nat :=
  1000 * dval a + 100 * dval b + 10 * dval c + dval d

/-- Ordered alternation on options (Python's regex alternation preference). -/
def orO (x y : Option α) : Option α :=
  match x with
  | some v => some v
  | none => y

/-- Greedy `(\d{1,2})` at the end of a date pattern: two digits if available,
else one, else fail (nothing follows it, so no backtracking is needed). -/
def takeG3 : Str → Option Nat
  | a :: b :: _ =>
    if isDigitC a && isDigitC b then some (val2 a b)
    else if isDigitC a then some (dval a)
    else none
  | [a] => if isDigitC a then some (dval a) else none
  | [] => none

/-- Middle of a date pattern after the first separator:
`(\d{1,2})[.\-\/](\d{1,2})` with the greedy two-then-one backtracking of the
month group. Returns `(month, day)` group values. -/
def dateTail (r : Str) : Option (Nat × Nat) :=
  orO
    (match r with
     | e :: f :: s2 :: r4 =>
       if isDigitC e && isDigitC f && isSepD s2 then
         match takeG3 r4 with
         | some g3 => some (val2 e f, g3)
         | none => none
       else none
     | _ => none)
    (match r with
     | e :: s2 :: r4 =>
       if isDigitC e && isSepD s2 then
         match takeG3 r4 with
         | some g3 => some (dval e, g3)
         | none => none
       else none
     | _ => none)

/-- One attempt of the 4-digit-year date pattern at the head of `l`; returns
the `(year, month, day)` group values. -/
def matchD1At (l : Str) : Option (Nat × Nat × Nat) :=
  match l with
  | a :: b :: c :: d :: s1 :: r2 =>
    if isDigitC a && isDigitC b && isDigitC c && isDigitC d && isSepD s1 then
      match dateTail r2 with
      | some (g2, g3) => some (val4 a b c d, g2, g3)
      | none => none
    else none
  | _ => none

/-- One attempt of the 2-digit-year date pattern at the head of `l`. -/
def matchD2At (l : Str) : Option (Nat × Nat × Nat) :=
  match l with
  | a :: b :: s1 :: r2 =>
    if isDigitC a && isDigitC b && isSepD s1 then
      match dateTail r2 with
      | some (g2, g3) => some (val2 a b, g2, g3)
      | none => none
    else none
  | _ => none

/-- Embedding of `re.search` with the 4-digit-year pattern: leftmost position
whose attempt succeeds. -/
def searchD1 : Str → Option (Nat × Nat × Nat)
  | [] => none
  | c :: rest =>
    match matchD1At (c :: rest) with
    | some g => some g
    | none => searchD1 rest

/-- Embedding of `re.search` with the 2-digit-year pattern. -/
def searchD2 : Str → Option (Nat × Nat × Nat)
  | [] => none
  | c :: rest =>
    match matchD2At (c :: rest) with
    | some g => some g
    | none => searchD2 rest

/-- Tail of the time pattern after `HH:`: `(\d{2})(?::(\d{2}))?`; a missing
optional seconds group defaults to 0 exactly as the source's `ss = 0`. -/
def timeTail (h : Nat) (r : Str) : Option (Nat × Nat × Nat) :=
  match r with
  | c :: d :: rest =>
    if isDigitC c && isDigitC d then
      match rest with
      | s :: e :: f :: _ =>
        if s = ':' && isDigitC e && isDigitC f then some (h, val2 c d, val2 e f)
        else some (h, val2 c d, 0)
      | _ => some (h, val2 c d, 0)
    else none
  | _ => none

/-- One attempt of `(\d{1,2}):(\d{2})(?::(\d{2}))?` at the head of `l`, with
the greedy two-then-one backtracking of the hour group. -/
def matchTAt (l : Str) : Option (Nat × Nat × Nat) :=
  orO
    (match l with
     | a :: b :: c :: r =>
       if isDigitC a && isDigitC b && c = ':' then timeTail (val2 a b) r
       else none
     | _ => none)
    (match l with
     | a :: b :: r =>
       if isDigitC a && b = ':' then timeTail (dval a) r
       else none
     | _ => none)

/-- Embedding of `re.search` with the time pattern. -/
def searchT : Str → Option (Nat × Nat × Nat)
  | [] => none
  | c :: rest =>
    match matchTAt (c :: rest) with
    | some g => some g
    | none => searchT rest

/-- The `for dp in date_patts ... break` loop: the 2-digit-year pattern is
consulted only when the 4-digit-year pattern matched nowhere; a 2-digit year
`YY` is read as `2000 + YY`. -/
def dateFields (l : Str) : Option (Nat × Nat × Nat) :=
  match searchD1 l with
  | some g => some g
  | none =>
    match searchD2 l with
    | some (a, b, c) => some (2000 + a, b, c)
    | none => none

/-- The independent time search with the `hh, mi, ss = 0, 0, 0` defaults. -/
def timeFields (l : Str) : Nat × Nat × Nat := (searchT l).getD (0, 0, 0)

/-- Calendar timestamp value, mirroring Python's `datetime.datetime`. -/
structure DateTime where
  year : Nat
  month : Nat
  day : Nat
  hour : Nat
  minute : Nat
  second : Nat
deriving DecidableEq, Repr

/-- Gregorian leap-year rule used by `datetime`. -/
def isLeap (y : Nat) : Bool := y % 4 = 0 && (y % 100 ≠ 0 || y % 400 = 0)

/-- Days in a month, as `datetime` validates them. -/
def daysInMonth (y m : Nat) : Nat :=
  if m = 2 then (if isLeap y then 29 else 28)
  else if m = 4 || m = 6 || m = 9 || m = 11 then 30
  else 31

/-- Validity condition of the `datetime.datetime(...)` constructor
(`MINYEAR = 1`, `MAXYEAR = 9999`). -/
def validDT (y m d h mi s : Nat) : Bool :=
  1 ≤ y && y ≤ 9999 && 1 ≤ m && m ≤ 12 && 1 ≤ d && d ≤ daysInMonth y m &&
  h ≤ 23 && mi ≤ 59 && s ≤ 59

/-- The guarded `datetime(yy, mm, dd, hh, mi, ss)` call: the `ValueError` of
an invalid component is caught and turned into `None`. -/
def mkDatetime (y m d h mi s : Nat) : Option DateTime :=
  if validDT y m d h mi s then some ⟨y, m, d, h, mi, s⟩ else none

/-- Embedding of `guess_datetime` (lines 91-124), including the Python
truthiness test `if yy and mm and dd` (all three nonzero). -/
def guessDatetime (l : Str) : Option DateTime :=
  match dateFields l with
  | some (y, m, d) =>
    if y ≠ 0 && m ≠ 0 && d ≠ 0 then
      match timeFields l with
      | (h, mi, s) => mkDatetime y m d h mi s
    else none
  | none => none

/-! ### Category classifier: `guess_category` (lines 139-159) -/

/-- Does `hay` start with `needle`. -/
def startsWithB : Str → Str → Bool
  | [], _ => true
  | _ :: _, [] => false
  | n :: ns, h :: hs => n = h && startsWithB ns hs

/-- Substring test, Python's `kw in t`. -/
def containsSub (needle hay : Str) : Bool :=
  startsWithB needle hay ||
  (match hay with
   | [] => false
   | _ :: t => containsSub needle t)

/-- A loaded vendor-map entry `(compiled_regex, category, vendor)`.  The
compiled regular expression comes from an external CSV, so it is abstracted
to its `pat.search` behaviour on the normalized text. -/
structure VendorPat where
  search : Str → Bool
  category : Str
  vendor : Str

/-- The `CATEGORY_RULES` table (lines 127-137), in source order. -/
def CATEGORY_RULES : List (Str × List Str) :=
  [ (str "편의점", [str "gs25", str "cu", str "세븐일레븐", str "ministop",
      str "emart24", str "이마트24", str "이마트에브리데이", str "emarteveryday"]),
    (str "카페", [str "스타벅스", str "이디야커피", str "투썸플레이스",
      str "할리스", str "메가MGC커피", str "메가커피", str "컴포즈커피",
      str "빽다방", str "더벤티", str "폴바셋", str "파스쿠찌", str "드롭탑",
      str "커피빈", str "공차", str "쥬씨", str "달콤", str "요거프레소",
      str "더카페", str "테라로사", str "카페베네", str "커피"]),
    (str "식당", [str "식당", str "분식", str "치킨", str "피자", str "족발",
      str "냉면", str "칼국수", str "김밥", str "국밥", str "한솥", str "버거",
      str "맥도날드", str "롯데리아", str "버거킹"]),
    (str "마트", [str "이마트", str "홈플러스", str "롯데마트", str "노브랜드",
      str "코스트코", str "마트", str "슈퍼"]),
    (str "배달", [str "배달의민족", str "쿠팡이츠", str "요기요", str "딜리버리"]),
    (str "교통", [str "버스", str "지하철", str "택시", str "코레일", str "철도",
      str "고속", str "교통", str "티머니"]),
    (str "의료/약국", [str "약국", str "병원", str "의원", str "치과", str "의무",
      str "메디칼", str "처방"]),
    (str "쇼핑", [str "무신사", str "쿠팡", str "네이버페이", str "11번가",
      str "지마켓", str "옥션", str "마켓컬리", str "ssg", str "위메프",
      str "티몬", str "롯데온"]),
    (str "문화/여가", [str "영화", str "CGV", str "메가박스", str "롯데시네마",
      str "넷플릭스", str "뮤지컬", str "공연", str "노래방"]) ]

/-- Score of one category: one point per keyword entry whose lowercased form
occurs in the normalized text (`if kw.lower() in t: s += 1`). -/
def kwScore (t : Str) (kws : List Str) : Nat :=
  kws.countP (fun kw => containsSub (lowerAll kw) t)

/-- The `score` dict in insertion order: categories in table order, keeping
only positive scores. -/
def scoreList (t : Str) : List (Str × Nat) :=
  (CATEGORY_RULES.map (fun p => (p.1, kwScore t p.2))).filter (fun x => 0 < x.2)

/-- Python's `max(items, key=...)` over a nonempty list: keep the earlier
element on ties, replace only on a strictly greater key. -/
def pickMaxFrom (a : Str × Nat) (l : List (Str × Nat)) : Str × Nat :=
  l.foldl (fun b y => if b.2 < y.2 then y else b) a

/-- Python's `max(score.items(), key=lambda x: x[1])` guarded by
`if score:`. -/
def pickMax : List (Str × Nat) → Option (Str × Nat)
  | [] => none
  | x :: ys => some (pickMaxFrom x ys)

/-- Keyword-scoring fallback of `guess_category` (lines 147-159). -/
def keywordClassify (t : Str) : Str :=
  match pickMax (scoreList t) with
  | some p => p.1
  | none => str "기타"

/-- Embedding of `guess_category` (lines 139-159): normalize, try the vendor
patterns in load order, then fall back to keyword scoring. -/
def guessCategory (vps : List VendorPat) (text : Str) : Str :=
  let t := normalizeStr text
  match vps.find? (fun p => p.search t) with
  | some p => p.category
  | none => keywordClassify t

/-- Specification-side classifier for the fallback, written from the claim:
the first category in table order reaching the maximum score, the sentinel
`"기타"` when no category scores above zero. -/
def listMaxScore (t : Str) : Nat :=
  (CATEGORY_RULES.map (fun p => kwScore t p.2)).foldl max 0

/-- Specification-side first-argmax classifier (claim C3's wording). -/
def firstArgmaxClassify (t : Str) : Str :=
  if listMaxScore t = 0 then str "기타"
  else
    match CATEGORY_RULES.find? (fun p => kwScore t p.2 = listMaxScore t) with
    | some p => p.1
    | none => str "기타"

/-! ### Pending-review store, correction modal and ledger writer
(lines 162-248) -/

/-- The `Pending` dataclass (lines 162-169). -/
structure Pending where
  id : Str
  filename : Str
  category : Str
  amount : Option Nat
  when : Option DateTime
  ocrText : Str
deriving DecidableEq

/-- The `PENDING` dict, as a lookup function. -/
abbrev Store := Str → Option Pending

/-- One CSV ledger row as `save_row` writes it (typed fields; absent amount
and timestamp become empty cells). -/
structure Row where
  id : Str
  filename : Str
  category : Str
  amount : Option Nat
  when : Option DateTime
  textPath : Str
deriving DecidableEq

/-- In-memory model of the bot's mutable state: the `PENDING` dict, the
appended CSV ledger, and the raw-text sidecar files. -/
structure BotState where
  pending : Store
  ledger : List Row
  sidecars : List (Str × Str)

/-- Dict insertion `PENDING[pid] = p`. -/
def storeInsert (m : Store) (k : Str) (v : Pending) : Store :=
  fun x => if x = k then some v else m x

/-- Dict removal `PENDING.pop(pid, None)`. -/
def storeRemove (m : Store) (k : Str) : Store :=
  fun x => if x = k then none else m x

/-- Sidecar path `f"{p.id}.txt"`. -/
def textPathOf (p : Pending) : Str := p.id ++ str ".txt"

/-- The ledger row `save_row` appends for a draft. -/
def rowOf (p : Pending) : Row :=
  ⟨p.id, p.filename, p.category, p.amount, p.when, textPathOf p⟩

/-- Embedding of `save_row` (lines 173-184): write the sidecar, append one
CSV row. -/
def saveRow (s : BotState) (p : Pending) : BotState :=
  { s with
    ledger := s.ledger ++ [rowOf p],
    sidecars := s.sidecars ++ [(textPathOf p, p.ocrText)] }

/-- The user-facing reply strings of the interaction handlers. -/
def msgSaved : Str := str "✅ 저장했습니다."

/-- Reply of a confirm on a missing draft. -/
def msgExpired : Str := str "세션이 만료되었습니다. 다시 시도해주세요."

/-- Reply of a correction submit on a missing draft. -/
def msgNotFound : Str := str "세션을 찾지 못했습니다. 다시 시도해주세요."

/-- Reply of a successful correction submit. -/
def msgEdited : Str := str "✅ 수정값으로 저장했습니다."

/-- Embedding of `ReviewView.confirm` (lines 230-240): look the draft up;
a missing draft is reported as an expired session and nothing is written;
a live draft is persisted and evicted. -/
def confirmStep (s : BotState) (pid : Str) : BotState × Str :=
  match s.pending pid with
  | none => (s, msgExpired)
  | some p =>
    let s1 := saveRow s p
    ({ s1 with pending := storeRemove s1.pending pid }, msgSaved)

/-- The `strptime(dt, "%Y-%m-%d %H:%M:%S")` parser: CPython's `_strptime`
compiles the format to `\d\d\d\d` for `%Y`, `1[0-2]|0[1-9]|[1-9]` for `%m`,
`3[01]|[12]\d|0[1-9]|[1-9]` for `%d`, `2[0-3]|[0-1]\d|\d` for `%H` and
`[0-5]\d|\d` for `%M`/`%S`, requires the whole string to be consumed, and
then validates the day against the calendar. -/
def parse2or1 (valid2 : Nat → Bool) (valid1 : Nat → Bool) (sep : Char)
    (l : Str) : Option (Nat × Str) :=
  orO
    (match l with
     | a :: b :: s :: r =>
       if isDigitC a && isDigitC b && valid2 (val2 a b) && s = sep then
         some (val2 a b, r)
       else none
     | _ => none)
    (match l with
     | a :: s :: r =>
       if isDigitC a && valid1 (dval a) && s = sep then some (dval a, r)
       else none
     | _ => none)

/-- Field variant for the date-time gap: `_strptime` compiles the literal
space of the format to `\s+`, so the separator is a nonempty whitespace run. -/
def parse2or1WS (valid2 : Nat → Bool) (valid1 : Nat → Bool) (l : Str) :
    Option (Nat × Str) :=
  orO
    (match l with
     | a :: b :: s :: r =>
       if isDigitC a && isDigitC b && valid2 (val2 a b) && isSpaceC s then
         some (val2 a b, r.dropWhile isSpaceC)
       else none
     | _ => none)
    (match l with
     | a :: s :: r =>
       if isDigitC a && valid1 (dval a) && isSpaceC s then
         some (dval a, r.dropWhile isSpaceC)
       else none
     | _ => none)

/-- Final field of the format: two or one digits ending the string. -/
def parseLast (valid2 : Nat → Bool) (l : Str) : Option Nat :=
  match l with
  | [a, b] =>
    if isDigitC a && isDigitC b && valid2 (val2 a b) then some (val2 a b)
    else none
  | [a] => if isDigitC a then some (dval a) else none
  | _ => none

/-- Embedding of `datetime.strptime(dt, "%Y-%m-%d %H:%M:%S")`, `None` on any
`ValueError`. -/
def strptimeYmdHms (l : Str) : Option DateTime :=
  match l with
  | a :: b :: c :: d :: s :: r =>
    if isDigitC a && isDigitC b && isDigitC c && isDigitC d && s = '-' then
      match parse2or1 (fun v => 1 ≤ v && v ≤ 12) (fun v => 1 ≤ v) '-' r with
      | some (m, r2) =>
        match parse2or1WS (fun v => 1 ≤ v && v ≤ 31) (fun v => 1 ≤ v) r2 with
        | some (dd, r3) =>
          match parse2or1 (fun v => v ≤ 23) (fun _ => true) ':' r3 with
          | some (h, r4) =>
            match parse2or1 (fun v => v ≤ 59) (fun _ => true) ':' r4 with
            | some (mi, r5) =>
              match parseLast (fun v => v ≤ 59) r5 with
              | some ss => mkDatetime (val4 a b c d) m dd h mi ss
              | none => none
            | none => none
          | none => none
        | none => none
      | none => none
    else none
  | _ => none

/-- Keep digits only: `re.sub(r"[^\d]", "", ...)`. -/
def digitsOnly (l : Str) : Str := l.filter isDigitC

/-- The corrected draft `CorrectionModal.on_submit` builds from the form
fields (lines 203-216): an empty/whitespace category falls back to `"기타"`;
a digit-free amount keeps the previous amount; an empty or unparsable
timestamp keeps the previous timestamp. -/
def correctedDraft (p : Pending) (catIn amtIn dtIn : Str) : Pending :=
  let cat := if stripStr catIn = [] then str "기타" else stripStr catIn
  let amt :=
    if digitsOnly amtIn = [] then none else some (digitsVal amtIn)
  let dt := if dtIn = [] then [] else stripStr dtIn
  let when :=
    if dt = [] then none
    else
      match strptimeYmdHms dt with
      | some w => some w
      | none => p.when
  { p with
    category := cat,
    amount := match amt with | some a => some a | none => p.amount,
    when := match when with | some w => some w | none => p.when }

/-- Embedding of `CorrectionModal.on_submit` (lines 197-220): a missing draft
is reported as a not-found session and nothing is written; a live draft is
corrected, persisted and evicted. -/
def submitStep (s : BotState) (pid : Str) (catIn amtIn dtIn : Str) :
    BotState × Str :=
  match s.pending pid with
  | none => (s, msgNotFound)
  | some p =>
    let s1 := saveRow s (correctedDraft p catIn amtIn dtIn)
    ({ s1 with pending := storeRemove s1.pending pid }, msgEdited)

/-! ### Draft creation in `on_message` (lines 268-291) -/

/-- Embedding of `os.path.splitext(name)[1]`: the extension including its
dot, taken at the last dot of the basename provided some earlier basename
character is not a dot; empty when there is none. -/
def splitextExt (name : Str) : Str :=
  let brev := name.reverse.takeWhile (fun c => c ≠ '/')
  match brev.dropWhile (fun c => c ≠ '.') with
  | '.' :: after =>
    if after.any (fun c => c ≠ '.') then
      ((brev.takeWhile (fun c => c ≠ '.')) ++ ['.']).reverse
    else []
  | _ => []

/-- The saved filename `f"{pid}{ext}"` with
`ext = os.path.splitext(att.filename)[1].lower() or ".jpg"` (lines 273-274). -/
def mkFname (pid name : Str) : Str :=
  let ext := lowerAll (splitextExt name)
  pid ++ (if ext = [] then str ".jpg" else ext)

/-- The `Pending` record `on_message` stores for an image attachment
(lines 289-291): note its `filename` field is the saved file's name
`f"{pid}{ext}"`, not the attachment's original name. -/
def draftOf (pid attName cat : Str) (amt : Option Nat) (when : Option DateTime)
    (text : Str) : Pending :=
  ⟨pid, mkFname pid attName, cat, amt, when, text⟩

/-! ### Lemmas: the normalizer -/

theorem charOfNat_toNat (n : Nat) (h : n < 55296) : (Char.ofNat n).toNat = n := by
  unfold Char.ofNat
  rw [dif_pos (Or.inl h)]
  simp [Char.toNat, Char.ofNatAux, UInt32.toNat, UInt32.ofNat']

theorem toLowerPy_toNat_of_upper (c : Char)
    (h : 65 ≤ c.toNat ∧ c.toNat ≤ 90) :
    (toLowerPy c).toNat = c.toNat + 32 := by
  unfold toLowerPy
  rw [if_pos (by simp [h.1, h.2])]
  exact charOfNat_toNat _ (by have := h.2; omega)

theorem toLowerPy_of_not_upper (c : Char)
    (h : ¬(65 ≤ c.toNat ∧ c.toNat ≤ 90)) : toLowerPy c = c := by
  unfold toLowerPy
  rw [if_neg (by simpa using h)]

theorem toLowerPy_idem (c : Char) : toLowerPy (toLowerPy c) = toLowerPy c := by
  by_cases h : 65 ≤ c.toNat ∧ c.toNat ≤ 90
  · have h2 : (toLowerPy c).toNat = c.toNat + 32 := toLowerPy_toNat_of_upper c h
    exact toLowerPy_of_not_upper _ (by omega)
  · rw [toLowerPy_of_not_upper c h, toLowerPy_of_not_upper c h]

theorem lower_space (c : Char) : isSpaceC (toLowerPy c) = isSpaceC c := by
  by_cases h : 65 ≤ c.toNat ∧ c.toNat ≤ 90
  · have h2 : (toLowerPy c).toNat = c.toNat + 32 := toLowerPy_toNat_of_upper c h
    have e1 : isSpaceC (toLowerPy c) = false := by simp [isSpaceC, h2]; omega
    have e2 : isSpaceC c = false := by simp [isSpaceC]; omega
    rw [e1, e2]
  · rw [toLowerPy_of_not_upper c h]

/-- No two adjacent whitespace characters (the separation a collapsed string
satisfies). -/
def RSp (a b : Char) : Prop := isSpaceC a = false ∨ isSpaceC b = false

theorem RSp_symm {a b : Char} (h : RSp a b) : RSp b a := h.symm

theorem collapse_spaces (l : Str) :
    ∀ c ∈ collapse l, isSpaceC c = true → c = ' ' := by
  induction l with
  | nil => intro c hc; simp [collapse] at hc
  | cons a rest ih =>
    cases rest with
    | nil =>
      intro c hc hsp
      by_cases h : isSpaceC a = true
      · simp [collapse, h] at hc; simp [hc]
      · simp [collapse, h] at hc; subst hc; simp [h] at hsp
    | cons d r2 =>
      intro c hc hsp
      by_cases h : isSpaceC a = true
      · by_cases h2 : isSpaceC d = true
        · rw [show collapse (a :: d :: r2) = collapse (d :: r2) by
            simp [collapse, h, h2]] at hc
          exact ih c hc hsp
        · rw [show collapse (a :: d :: r2) = ' ' :: collapse (d :: r2) by
            simp [collapse, h, h2]] at hc
          rcases List.mem_cons.1 hc with h3 | h3
          · exact h3
          · exact ih c h3 hsp
      · rw [show collapse (a :: d :: r2) = a :: collapse (d :: r2) by
          simp [collapse, h]] at hc
        rcases List.mem_cons.1 hc with h3 | h3
        · subst h3; exact absurd hsp h
        · exact ih c h3 hsp

theorem collapse_cons (c : Char) (r : Str) :
    ∃ t, collapse (c :: r) = (if isSpaceC c then ' ' else c) :: t := by
  induction r generalizing c with
  | nil =>
    by_cases h : isSpaceC c = true
    · exact ⟨[], by simp [collapse, h]⟩
    · exact ⟨[], by simp [collapse, h]⟩
  | cons d r2 ih =>
    by_cases h : isSpaceC c = true
    · by_cases h2 : isSpaceC d = true
      · obtain ⟨t, ht⟩ := ih d
        refine ⟨t, ?_⟩
        rw [show collapse (c :: d :: r2) = collapse (d :: r2) by
          simp [collapse, h, h2], ht]
        simp [h, h2]
      · exact ⟨collapse (d :: r2), by simp [collapse, h, h2]⟩
    · exact ⟨collapse (d :: r2), by simp [collapse, h]⟩

theorem collapse_chain (l : Str) : List.Chain' RSp (collapse l) := by
  induction l with
  | nil => simp [collapse]
  | cons a rest ih =>
    cases rest with
    | nil =>
      by_cases h : isSpaceC a = true
      · simp [collapse, h]
      · simp [collapse, h]
    | cons d r2 =>
      by_cases h : isSpaceC a = true
      · by_cases h2 : isSpaceC d = true
        · rw [show collapse (a :: d :: r2) = collapse (d :: r2) by
            simp [collapse, h, h2]]
          exact ih
        · rw [show collapse (a :: d :: r2) = ' ' :: collapse (d :: r2) by
            simp [collapse, h, h2]]
          obtain ⟨t, ht⟩ := collapse_cons d r2
          rw [ht]
          rw [ht] at ih
          exact List.Chain'.cons (by simp [h2, RSp]) ih
      · rw [show collapse (a :: d :: r2) = a :: collapse (d :: r2) by
          simp [collapse, h]]
        obtain ⟨t, ht⟩ := collapse_cons d r2
        rw [ht]
        rw [ht] at ih
        exact List.Chain'.cons (Or.inl (by simpa using h)) ih

theorem collapse_fix (l : Str)
    (h1 : ∀ c ∈ l, isSpaceC c = true → c = ' ')
    (h2 : List.Chain' RSp l) : collapse l = l := by
  induction l with
  | nil => rfl
  | cons a rest ih =>
    cases rest with
    | nil =>
      by_cases h : isSpaceC a = true
      · have : a = ' ' := h1 a (by simp) h
        simp [collapse, h, this]
      · simp [collapse, h]
    | cons d r2 =>
      have hrec : collapse (d :: r2) = d :: r2 := by
        refine ih (fun c hc => h1 c (List.mem_cons_of_mem a hc)) h2.tail
      by_cases h : isSpaceC a = true
      · have hd : isSpaceC d = false := by
          rcases (List.chain'_cons.1 h2).1 with hh | hh
          · rw [h] at hh; cases hh
          · exact hh
        have ha : a = ' ' := h1 a (by simp) h
        rw [show collapse (a :: d :: r2) = ' ' :: collapse (d :: r2) by
          simp [collapse, h, hd], hrec, ha]
      · rw [show collapse (a :: d :: r2) = a :: collapse (d :: r2) by
          simp [collapse, h], hrec]

theorem dropWhile_head_not {p : Char → Bool} {l : Str} {c : Char}
    (h : (l.dropWhile p).head? = some c) : p c = false := by
  induction l with
  | nil => simp [List.dropWhile] at h
  | cons a rest ih =>
    by_cases hp : p a = true
    · rw [List.dropWhile_cons_of_pos hp] at h
      exact ih h
    · rw [List.dropWhile_cons_of_neg hp] at h
      simp at h
      subst h
      simpa using hp

theorem dropWhile_eq_self_of {p : Char → Bool} {l : Str}
    (h : ∀ c, l.head? = some c → p c = false) : l.dropWhile p = l := by
  cases l with
  | nil => rfl
  | cons a rest => exact List.dropWhile_cons_of_neg (by simp [h a rfl])

theorem chain'_dropWhile {R : Char → Char → Prop} {p : Char → Bool} {l : Str}
    (h : List.Chain' R l) : List.Chain' R (l.dropWhile p) := by
  induction l with
  | nil => simp [List.dropWhile]
  | cons a rest ih =>
    by_cases hp : p a = true
    · rw [List.dropWhile_cons_of_pos hp]
      exact ih h.tail
    · rwa [List.dropWhile_cons_of_neg (by simp [hp])]

theorem chain'_RSp_reverse {l : Str} (h : List.Chain' RSp l) :
    List.Chain' RSp l.reverse := by
  rw [List.chain'_reverse]
  exact h.imp (fun a b hr => RSp_symm hr)

theorem chain'_stripStr {l : Str} (h : List.Chain' RSp l) :
    List.Chain' RSp (stripStr l) := by
  unfold stripStr
  exact chain'_RSp_reverse (chain'_dropWhile (chain'_RSp_reverse
    (chain'_dropWhile h)))

theorem mem_stripStr {l : Str} {c : Char} (h : c ∈ stripStr l) : c ∈ l := by
  unfold stripStr at h
  rw [List.mem_reverse] at h
  have h2 := (List.dropWhile_sublist _).subset h
  rw [List.mem_reverse] at h2
  exact (List.dropWhile_sublist _).subset h2

theorem stripStr_idem (l : Str) : stripStr (stripStr l) = stripStr l := by
  unfold stripStr
  set u := l.dropWhile isSpaceC with hu
  set v := u.reverse.dropWhile isSpaceC with hv
  have hvrev : v.reverse.dropWhile isSpaceC = v.reverse := by
    apply dropWhile_eq_self_of
    intro c hc
    cases hvr : v.reverse with
    | nil => simp [hvr] at hc
    | cons x xs =>
      have hvne : v ≠ [] := by
        intro h0; rw [h0] at hvr; simp at hvr
      have hsplit : u.reverse.takeWhile isSpaceC ++ v = u.reverse := by
        rw [hv]; exact List.takeWhile_append_dropWhile isSpaceC u.reverse
      have hu2 : u = v.reverse ++ (u.reverse.takeWhile isSpaceC).reverse := by
        have := congrArg List.reverse hsplit
        simpa using this.symm
      have hhead : u.head? = v.reverse.head? := by
        rw [hu2, List.head?_append]
        cases hvr2 : v.reverse with
        | nil => exact absurd (by simpa using hvr2) hvne
        | cons y ys => simp
      rw [hvr] at hc
      simp at hc
      subst hc
      apply dropWhile_head_not (p := isSpaceC) (l := l)
      rw [← hu, hhead, hvr]
      rfl
  rw [hvrev, List.reverse_reverse]
  have : v.dropWhile isSpaceC = v := by
    apply dropWhile_eq_self_of
    intro c hc
    exact dropWhile_head_not (p := isSpaceC) (l := u.reverse) (by rw [← hv, hc])
  rw [this]

theorem lowerAll_idem (l : Str) : lowerAll (lowerAll l) = lowerAll l := by
  unfold lowerAll
  rw [List.map_map]
  exact List.map_congr_left (fun c _ => toLowerPy_idem c)

theorem collapse_lower (l : Str) :
    collapse (lowerAll l) = lowerAll (collapse l) := by
  induction l with
  | nil => rfl
  | cons a rest ih =>
    cases rest with
    | nil =>
      by_cases h : isSpaceC a = true
      · simp [collapse, lowerAll, lower_space, h]
        rw [show toLowerPy ' ' = ' ' from by decide]
      · simp [collapse, lowerAll, lower_space, h]
    | cons d r2 =>
      by_cases h : isSpaceC a = true
      · by_cases h2 : isSpaceC d = true
        · have e1 : collapse (a :: d :: r2) = collapse (d :: r2) := by
            simp [collapse, h, h2]
          have e2 : collapse (lowerAll (a :: d :: r2)) =
              collapse (lowerAll (d :: r2)) := by
            simp [lowerAll, collapse, lower_space, h, h2]
          rw [e1, e2, ih]
        · have e1 : collapse (a :: d :: r2) = ' ' :: collapse (d :: r2) := by
            simp [collapse, h, h2]
          have e2 : collapse (lowerAll (a :: d :: r2)) =
              ' ' :: collapse (lowerAll (d :: r2)) := by
            simp [lowerAll, collapse, lower_space, h, h2]
          rw [e1, e2, ih]
          simp [lowerAll]
          rw [show toLowerPy ' ' = ' ' from by decide]
      · have e1 : collapse (a :: d :: r2) = a :: collapse (d :: r2) := by
          simp [collapse, h]
        have e2 : collapse (lowerAll (a :: d :: r2)) =
            toLowerPy a :: collapse (lowerAll (d :: r2)) := by
          simp [lowerAll, collapse, lower_space, h]
        rw [e1, e2, ih]
        simp [lowerAll]

theorem stripStr_lower (l : Str) :
    stripStr (lowerAll l) = lowerAll (stripStr l) := by
  unfold stripStr lowerAll
  have hp : (isSpaceC ∘ toLowerPy) = isSpaceC := funext lower_space
  rw [List.dropWhile_map, hp, ← List.map_reverse, List.dropWhile_map, hp,
    ← List.map_reverse]

/-- Claim C6's target: `normalize` is idempotent. -/
theorem normalizeStr_idem (s : Str) :
    normalizeStr (normalizeStr s) = normalizeStr s := by
  unfold normalizeStr
  set y := stripStr (collapse s) with hy
  have hcol : collapse y = y := by
    apply collapse_fix
    · intro c hc; exact collapse_spaces s c (mem_stripStr hc)
    · exact chain'_stripStr (collapse_chain s)
  have hstr : stripStr y = y := by
    rw [hy]; exact stripStr_idem (collapse s)
  rw [collapse_lower, hcol, stripStr_lower, hstr, lowerAll_idem]

/-! ### Lemmas: Python `max` over a list, as `foldl max` -/

theorem le_foldl_max (l : List Nat) (a : Nat) :
    a ≤ l.foldl max a ∧ ∀ v ∈ l, v ≤ l.foldl max a := by
  induction l generalizing a with
  | nil => exact ⟨le_refl a, by simp⟩
  | cons x xs ih =>
    refine ⟨le_trans (le_max_left a x) (ih (max a x)).1, ?_⟩
    intro v hv
    rcases List.mem_cons.1 hv with h | h
    · subst h
      exact le_trans (le_max_right a v) (ih (max a v)).1
    · exact (ih (max a x)).2 v h

theorem foldl_max_mem (l : List Nat) (a : Nat) :
    l.foldl max a = a ∨ l.foldl max a ∈ l := by
  induction l generalizing a with
  | nil => exact Or.inl rfl
  | cons x xs ih =>
    rcases ih (max a x) with h | h
    · rcases max_choice a x with h2 | h2
      · exact Or.inl (by rw [List.foldl_cons, h, h2])
      · exact Or.inr (by rw [List.foldl_cons, h, h2]; exact List.mem_cons_self x xs)
    · exact Or.inr (List.mem_cons_of_mem x (by rwa [List.foldl_cons]))

theorem foldl_max_zero_mem {l : List Nat} (h : l ≠ []) : l.foldl max 0 ∈ l := by
  rcases foldl_max_mem l 0 with h0 | hm
  · cases l with
    | nil => exact absurd rfl h
    | cons x xs =>
      have hx : x ≤ (x :: xs).foldl max 0 := (le_foldl_max (x :: xs) 0).2 x
        (List.mem_cons_self x xs)
      rw [h0] at hx
      have : x = 0 := Nat.le_zero.1 hx
      rw [h0, ← this]
      exact List.mem_cons_self x xs
  · exact hm

/-! ### Claim theorems: amount extractor -/

/-- C1: `guess_amount` collects the matched numeric tokens as integer
candidates and returns the maximum candidate `>= 1000` when one exists,
otherwise the maximum of all candidates, and `None` when no token matched;
on `"합계 12,345원 포인트 50"` it returns `12345`. -/
theorem guess_amount_spec (text : Str) :
    (amountCandidates text = [] → guessAmount text = none) ∧
    (∀ v ∈ amountCandidates text, 1000 ≤ v →
      ∃ r, guessAmount text = some r ∧ r ∈ amountCandidates text ∧ 1000 ≤ r ∧
        ∀ w ∈ amountCandidates text, 1000 ≤ w → w ≤ r) ∧
    ((∀ v ∈ amountCandidates text, v < 1000) → amountCandidates text ≠ [] →
      ∃ r, guessAmount text = some r ∧ r ∈ amountCandidates text ∧
        ∀ w ∈ amountCandidates text, w ≤ r) ∧
    guessAmount (str "합계 12,345원 포인트 50") = some 12345 := by
  refine ⟨?_, ?_, ?_, by decide⟩
  · intro h
    simp only [guessAmount, h, List.filter_nil]
  · intro v hv hv1000
    have hvbig : v ∈ (amountCandidates text).filter (fun v => 1000 ≤ v) :=
      List.mem_filter.2 ⟨hv, by simpa using hv1000⟩
    cases hbig : (amountCandidates text).filter (fun v => 1000 ≤ v) with
    | nil => rw [hbig] at hvbig; cases hvbig
    | cons b bs =>
      refine ⟨(b :: bs).foldl max 0, ?_, ?_, ?_, ?_⟩
      · simp only [guessAmount, hbig]
      · have h2 : (b :: bs).foldl max 0 ∈
            (amountCandidates text).filter (fun v => 1000 ≤ v) := by
          rw [hbig]; exact foldl_max_zero_mem (by simp)
        exact (List.mem_filter.1 h2).1
      · have h2 : (b :: bs).foldl max 0 ∈
            (amountCandidates text).filter (fun v => 1000 ≤ v) := by
          rw [hbig]; exact foldl_max_zero_mem (by simp)
        simpa using (List.mem_filter.1 h2).2
      · intro w hw hw1000
        have hwbig : w ∈ (amountCandidates text).filter (fun v => 1000 ≤ v) :=
          List.mem_filter.2 ⟨hw, by simpa using hw1000⟩
        rw [hbig] at hwbig
        exact (le_foldl_max (b :: bs) 0).2 w hwbig
  · intro hsmall hne
    cases hcs : amountCandidates text with
    | nil => exact absurd hcs hne
    | cons c cs =>
      rw [hcs] at hsmall
      have hbig : (c :: cs).filter (fun v => 1000 ≤ v) = [] := by
        rw [List.filter_eq_nil_iff]
        intro a ha
        simpa using Nat.not_le.2 (hsmall a ha)
      refine ⟨(c :: cs).foldl max 0, ?_, ?_, ?_⟩
      · simp only [guessAmount, hcs, hbig]
      · exact foldl_max_zero_mem (by simp)
      · intro w hw
        exact (le_foldl_max (c :: cs) 0).2 w hw

/-- Witness for C1: the concrete receipt line instantiates every hypothesis
of the preferred-maximum branch. -/
theorem guess_amount_spec_witness :
    ∃ r, guessAmount (str "합계 12,345원 포인트 50") = some r ∧
      r ∈ amountCandidates (str "합계 12,345원 포인트 50") ∧ 1000 ≤ r ∧
      ∀ w ∈ amountCandidates (str "합계 12,345원 포인트 50"),
        1000 ≤ w → w ≤ r :=
  (guess_amount_spec (str "합계 12,345원 포인트 50")).2.1 12345 (by decide)
    (by decide)

/-! ### Claim theorems: date/time extractor -/

/-- C4: `guess_datetime` tries the 4-digit-year pattern first and the
2-digit-year pattern only when the first matched nowhere, reads `YY` as
`2000+YY`, searches the time independently with 0 defaults, and combines;
the two concrete receipt lines give `2025-11-13T14:05:30` and
`2025-03-02T13:00:00`. -/
theorem guess_datetime_spec :
    (∀ (text : Str) (g : Nat × Nat × Nat), searchD1 text = some g →
      dateFields text = some g) ∧
    (∀ (text : Str) (a b c : Nat), searchD1 text = none →
      searchD2 text = some (a, b, c) →
      dateFields text = some (2000 + a, b, c)) ∧
    (∀ text : Str, searchT text = none → timeFields text = (0, 0, 0)) ∧
    guessDatetime (str "2025-11-13 14:05:30 결제완료") =
      some ⟨2025, 11, 13, 14, 5, 30⟩ ∧
    guessDatetime (str "25.3.2 13:00") = some ⟨2025, 3, 2, 13, 0, 0⟩ := by
  refine ⟨?_, ?_, ?_, by decide, by decide⟩
  · intro text g h
    simp [dateFields, h]
  · intro text a b c h1 h2
    simp [dateFields, h1, h2]
  · intro text h
    simp [timeFields, h]

/-- Witness for C4: the 2-digit-year fallback fires on `"25.3.2 13:00"` and
reads the year as `2000 + 25`. -/
theorem guess_datetime_spec_witness :
    dateFields (str "25.3.2 13:00") = some (2025, 3, 2) :=
  guess_datetime_spec.2.1 (str "25.3.2 13:00") 25 3 2 (by decide) (by decide)

/-- C5: `guess_datetime` returns `None` (it does not raise) when the matched
year/month/day are not a valid calendar date — in particular on
`"2025-13-40"` — and returns `None` whenever no date pattern matched,
whatever the time search found. -/
theorem guess_datetime_invalid (text : Str) :
    (dateFields text = none → guessDatetime text = none) ∧
    (∀ y m d, dateFields text = some (y, m, d) →
      ¬(1 ≤ y ∧ y ≤ 9999 ∧ 1 ≤ m ∧ m ≤ 12 ∧ 1 ≤ d ∧ d ≤ daysInMonth y m) →
      guessDatetime text = none) ∧
    guessDatetime (str "2025-13-40") = none := by
  refine ⟨?_, ?_, by decide⟩
  · intro h
    simp [guessDatetime, h]
  · intro y m d h hbad
    rcases htf : timeFields text with ⟨hh, mi, ss⟩
    simp only [guessDatetime, h, htf]
    split
    · cases hv : validDT y m d hh mi ss with
      | true =>
        simp only [validDT, Bool.and_eq_true, decide_eq_true_eq] at hv
        obtain ⟨⟨⟨⟨⟨⟨⟨⟨h1, h2⟩, h3⟩, h4⟩, h5⟩, h6⟩, h7⟩, h8⟩, h9⟩ := hv
        exact absurd ⟨h1, h2, h3, h4, h5, h6⟩ hbad
      | false => simp [mkDatetime, hv]
    · rfl

/-- Witness for C5: the invalid calendar date `2025-13-40` discharges the
invalid-date branch. -/
theorem guess_datetime_invalid_witness :
    guessDatetime (str "2025-13-40 결제") = none :=
  (guess_datetime_invalid (str "2025-13-40 결제")).2.1 2025 13 40 (by decide)
    (by decide)

/-- C10: `guess_datetime` is total (the construction is guarded), and a
matched time with an out-of-range component forces the whole extraction to
`None` even when the matched date is calendrically valid. -/
theorem guess_datetime_time_range (text : Str) :
    (∀ hh mi ss, searchT text = some (hh, mi, ss) →
      ¬(hh ≤ 23 ∧ mi ≤ 59 ∧ ss ≤ 59) → guessDatetime text = none) ∧
    guessDatetime (str "2025-11-13 25:00") = none := by
  refine ⟨?_, by decide⟩
  intro hh mi ss h hbad
  have htf : timeFields text = (hh, mi, ss) := by simp [timeFields, h]
  cases hd : dateFields text with
  | none => simp [guessDatetime, hd]
  | some g =>
    rcases g with ⟨y, m, d⟩
    simp only [guessDatetime, hd, htf]
    split
    · cases hv : validDT y m d hh mi ss with
      | true =>
        simp only [validDT, Bool.and_eq_true, decide_eq_true_eq] at hv
        obtain ⟨⟨⟨⟨⟨⟨⟨⟨h1, h2⟩, h3⟩, h4⟩, h5⟩, h6⟩, h7⟩, h8⟩, h9⟩ := hv
        exact absurd ⟨h7, h8, h9⟩ hbad
      | false => simp [mkDatetime, hv]
    · rfl

/-- Witness for C10: `"2025-11-13 25:00"` has a valid date and a matched but
out-of-range time, and the extraction is absent. -/
theorem guess_datetime_time_range_witness :
    guessDatetime (str "어 2025-11-13 25:00") = none :=
  (guess_datetime_time_range (str "어 2025-11-13 25:00")).1 25 0 0 (by decide)
    (by decide)

/-! ### Lemmas: first-argmax behaviour of the score dictionary -/

/-- Maximum of the second components, with 0 for the empty list. -/
def sndMax (l : List (Str × Nat)) : Nat := (l.map Prod.snd).foldl max 0

theorem foldl_max_shift (l : List Nat) (a b : Nat) :
    l.foldl max (max a b) = max a (l.foldl max b) := by
  induction l generalizing a b with
  | nil => rfl
  | cons x xs ih =>
    rw [List.foldl_cons, List.foldl_cons, max_assoc, ih]

theorem sndMax_cons (y : Str × Nat) (t : List (Str × Nat)) :
    sndMax (y :: t) = max y.2 (sndMax t) := by
  unfold sndMax
  rw [List.map_cons, List.foldl_cons, max_comm 0 y.2, foldl_max_shift]

theorem sndMax_le {l : List (Str × Nat)} {y : Str × Nat} (h : y ∈ l) :
    y.2 ≤ sndMax l :=
  (le_foldl_max (l.map Prod.snd) 0).2 y.2 (List.mem_map_of_mem Prod.snd h)

theorem sndMax_attain {l : List (Str × Nat)} (h : 0 < sndMax l) :
    ∃ y ∈ l, y.2 = sndMax l := by
  cases l with
  | nil => simp [sndMax] at h
  | cons x xs =>
    have hne : (x :: xs).map Prod.snd ≠ [] := by simp
    have hm := foldl_max_zero_mem hne
    obtain ⟨y, hy, hy2⟩ := List.mem_map.1 hm
    exact ⟨y, hy, hy2⟩

theorem pickMaxFrom_all_le {ys : List (Str × Nat)} {a : Str × Nat}
    (h : ∀ y ∈ ys, y.2 ≤ a.2) : pickMaxFrom a ys = a := by
  induction ys with
  | nil => rfl
  | cons y t ih =>
    unfold pickMaxFrom
    rw [List.foldl_cons]
    have : ¬(a.2 < y.2) := not_lt.2 (h y (List.mem_cons_self y t))
    rw [if_neg this]
    exact ih (fun z hz => h z (List.mem_cons_of_mem y hz))

theorem pickMaxFrom_lt (ys : List (Str × Nat)) :
    ∀ a b : Str × Nat, a.2 < sndMax ys → b.2 < sndMax ys →
      pickMaxFrom a ys = pickMaxFrom b ys := by
  induction ys with
  | nil => intro a b ha; simp [sndMax] at ha
  | cons y t ih =>
    intro a b ha hb
    rw [sndMax_cons] at ha hb
    unfold pickMaxFrom
    rw [List.foldl_cons, List.foldl_cons]
    by_cases h1 : a.2 < y.2
    · by_cases h2 : b.2 < y.2
      · rw [if_pos h1, if_pos h2]
      · have hbt : b.2 < sndMax t := (lt_max_iff.1 hb).resolve_left h2
        have hyt : y.2 < sndMax t := lt_of_le_of_lt (not_lt.1 h2) hbt
        rw [if_pos h1, if_neg h2]
        exact ih y b hyt hbt
    · have hat : a.2 < sndMax t := (lt_max_iff.1 ha).resolve_left h1
      by_cases h2 : b.2 < y.2
      · have hyt : y.2 < sndMax t := lt_of_le_of_lt (not_lt.1 h1) hat
        rw [if_neg h1, if_pos h2]
        exact ih a y hat hyt
      · have hbt : b.2 < sndMax t := (lt_max_iff.1 hb).resolve_left h2
        rw [if_neg h1, if_neg h2]
        exact ih a b hat hbt

theorem sndMax_filter_pos (l : List (Str × Nat)) :
    sndMax (l.filter (fun x => 0 < x.2)) = sndMax l := by
  induction l with
  | nil => rfl
  | cons x xs ih =>
    by_cases h : 0 < x.2
    · rw [List.filter_cons_of_pos (by simpa using h), sndMax_cons, ih,
        sndMax_cons]
    · rw [List.filter_cons_of_neg (by simpa using h), ih, sndMax_cons,
        Nat.not_lt, Nat.le_zero] at *
      rw [ih]
      omega

theorem pickMax_filter_eq_find (l : List (Str × Nat)) (hM : 0 < sndMax l) :
    pickMax (l.filter (fun x => 0 < x.2)) =
      l.find? (fun x => x.2 = sndMax l) := by
  induction l with
  | nil => simp [sndMax] at hM
  | cons x xs ih =>
    have hc := sndMax_cons x xs
    by_cases hx : sndMax xs ≤ x.2
    · have hmx : sndMax (x :: xs) = x.2 := by rw [hc]; exact max_eq_left hx
      have hxpos : 0 < x.2 := by omega
      have hhead : (decide (x.2 = sndMax (x :: xs))) = true := by
        simp [hmx]
      rw [List.find?_cons_of_pos
          (p := fun z : Str × Nat => decide (z.2 = sndMax (x :: xs))) _ hhead,
        List.filter_cons_of_pos (by simpa using hxpos)]
      show some (pickMaxFrom x (xs.filter (fun x => 0 < x.2))) = some x
      congr 1
      apply pickMaxFrom_all_le
      intro y hy
      have hyx : y ∈ xs := (List.mem_filter.1 hy).1
      exact le_trans (sndMax_le hyx) hx
    · have hlt : x.2 < sndMax xs := not_le.1 hx
      have hmx : sndMax (x :: xs) = sndMax xs := by
        rw [hc]; exact max_eq_right (le_of_lt hlt)
      have hpos : 0 < sndMax xs := by omega
      have hhead : ¬(decide (x.2 = sndMax (x :: xs))) = true := by
        simp [hmx]; omega
      rw [List.find?_cons_of_neg
          (p := fun z : Str × Nat => decide (z.2 = sndMax (x :: xs))) _ hhead]
      have htail := ih hpos
      rw [hmx]
      by_cases hxp : 0 < x.2
      · rw [List.filter_cons_of_pos (by simpa using hxp)]
        obtain ⟨y, hy, hy2⟩ := sndMax_attain hpos
        have hymem : y ∈ xs.filter (fun x => 0 < x.2) :=
          List.mem_filter.2 ⟨hy, by simp; omega⟩
        cases hf : xs.filter (fun x => 0 < x.2) with
        | nil => rw [hf] at hymem; cases hymem
        | cons z zs =>
          have hgoal : pickMax (x :: z :: zs) = pickMax (z :: zs) := by
            show some (pickMaxFrom x (z :: zs)) = some (pickMaxFrom z zs)
            congr 1
            have hMf : sndMax (z :: zs) = sndMax xs := by
              rw [← hf]; exact sndMax_filter_pos xs
            unfold pickMaxFrom
            simp only [List.foldl_cons]
            by_cases hxz : x.2 < z.2
            · rw [if_pos hxz]
            · rw [if_neg hxz]
              have hzx : z.2 ≤ x.2 := not_lt.1 hxz
              rw [sndMax_cons] at hMf
              have hxzs : x.2 < sndMax zs := by
                rcases lt_max_iff.1 (hMf ▸ hlt) with h | h
                · omega
                · exact h
              have hzzs : z.2 < sndMax zs := lt_of_le_of_lt hzx hxzs
              exact pickMaxFrom_lt zs x z hxzs hzzs
          rw [hgoal, ← hf]
          exact htail
      · have hx0 : x.2 = 0 := by omega
        rw [List.filter_cons_of_neg (by simp [hx0])]
        exact htail

/-! ### Claim theorems: category classifier -/

/-- C2: `guess_category` normalizes the text and returns the category of the
first vendor pattern (in load order) matching the normalized text, and this
vendor result is unconditional — it takes precedence over keyword scoring. -/
theorem guess_category_vendor (vps : List VendorPat) (text : Str)
    (p : VendorPat)
    (h : vps.find? (fun q => q.search (normalizeStr text)) = some p) :
    guessCategory vps text = p.category := by
  simp only [guessCategory, h]

/-- Witness for C2: a vendor pattern mapping `스타벅스` to `쇼핑` wins over
the built-in `카페` keyword on the same text. -/
theorem guess_category_vendor_witness :
    guessCategory
        [⟨fun t => containsSub (str "스타벅스") t, str "쇼핑", str "스타벅스"⟩]
        (str "스타벅스 아메리카노") = str "쇼핑" ∧
      keywordClassify (normalizeStr (str "스타벅스 아메리카노")) = str "카페" :=
  ⟨guess_category_vendor
      [⟨fun t => containsSub (str "스타벅스") t, str "쇼핑", str "스타벅스"⟩]
      (str "스타벅스 아메리카노") _ rfl,
    by decide⟩

/-- C3: with no vendor pattern matching, `guess_category` returns the first
category in `CATEGORY_RULES` order reaching the maximum keyword score (one
point per distinct keyword contained in the normalized text), and the
sentinel `기타` when every score is zero. -/
theorem guess_category_keyword_spec (vps : List VendorPat) (text : Str)
    (h : ∀ p ∈ vps, p.search (normalizeStr text) = false) :
    guessCategory vps text = firstArgmaxClassify (normalizeStr text) ∧
    (listMaxScore (normalizeStr text) = 0 →
      guessCategory vps text = str "기타") := by
  have hfind : vps.find? (fun p => p.search (normalizeStr text)) = none :=
    List.find?_eq_none.2 (fun p hp => by simp [h p hp])
  have hmain : guessCategory vps text = firstArgmaxClassify (normalizeStr text) := by
    simp only [guessCategory, hfind]
    set t := normalizeStr text with ht
    have hms : sndMax (CATEGORY_RULES.map (fun p => (p.1, kwScore t p.2))) =
        listMaxScore t := by
      unfold sndMax listMaxScore
      rw [List.map_map]
      rfl
    by_cases hM : listMaxScore t = 0
    · unfold firstArgmaxClassify
      rw [if_pos hM]
      have hnil : scoreList t = [] := by
        unfold scoreList
        rw [List.filter_eq_nil_iff]
        intro a ha
        have h2 : a.2 ≤ sndMax (CATEGORY_RULES.map (fun p => (p.1, kwScore t p.2))) :=
          sndMax_le ha
        rw [hms, hM] at h2
        simp
        omega
      unfold keywordClassify
      rw [hnil]
      rfl
    · unfold firstArgmaxClassify
      rw [if_neg hM]
      have hpos : 0 < sndMax (CATEGORY_RULES.map (fun p => (p.1, kwScore t p.2))) := by
        rw [hms]; omega
      have hpk := pickMax_filter_eq_find _ hpos
      rw [hms] at hpk
      have hsc : scoreList t =
          (CATEGORY_RULES.map (fun p => (p.1, kwScore t p.2))).filter
            (fun x => 0 < x.2) := rfl
      unfold keywordClassify
      rw [hsc, hpk, List.find?_map]
      have hcomp : ((fun x : Str × Nat => decide (x.2 = listMaxScore t)) ∘
          (fun p : Str × List Str => (p.1, kwScore t p.2))) =
          (fun p : Str × List Str => decide (kwScore t p.2 = listMaxScore t)) :=
        rfl
      rw [hcomp]
      cases CATEGORY_RULES.find? (fun p => kwScore t p.2 = listMaxScore t) with
      | some q => rfl
      | none => rfl
  refine ⟨hmain, fun hz => ?_⟩
  rw [hmain]
  unfold firstArgmaxClassify
  rw [if_pos hz]

/-- Witness for C3: with an empty vendor table, `"gs25 편의점"` classifies by
keywords to `편의점`, and a keyword-free text classifies to the sentinel. -/
theorem guess_category_keyword_spec_witness :
    guessCategory [] (str "GS25 편의점") =
        firstArgmaxClassify (normalizeStr (str "GS25 편의점")) ∧
      guessCategory [] (str "GS25 편의점") = str "편의점" ∧
      guessCategory [] (str "hello") = str "기타" :=
  ⟨(guess_category_keyword_spec [] (str "GS25 편의점") (by simp)).1,
    by decide,
    (guess_category_keyword_spec [] (str "hello") (by simp)).2 (by decide)⟩

/-! ### Claim theorems: pending-review store and correction modal -/

/-- C7: the draft lifecycle invariant. After creation the id looks up to the
draft; a confirm or correction-submit on a live id appends exactly one ledger
row (with its sidecar) and removes the draft; a confirm or submit on an id
with no live draft changes nothing and reports the stale-session reply. -/
theorem draft_lifecycle :
    (∀ (m : Store) (pid : Str) (d : Pending),
      storeInsert m pid d pid = some d) ∧
    (∀ (s : BotState) (pid : Str) (p : Pending), s.pending pid = some p →
      (confirmStep s pid).1.ledger = s.ledger ++ [rowOf p] ∧
      (confirmStep s pid).1.sidecars =
        s.sidecars ++ [(textPathOf p, p.ocrText)] ∧
      (confirmStep s pid).1.pending pid = none ∧
      (confirmStep s pid).2 = msgSaved) ∧
    (∀ (s : BotState) (pid : Str), s.pending pid = none →
      confirmStep s pid = (s, msgExpired)) ∧
    (∀ (s : BotState) (pid : Str) (p : Pending) (c a t : Str),
      s.pending pid = some p →
      (submitStep s pid c a t).1.ledger =
        s.ledger ++ [rowOf (correctedDraft p c a t)] ∧
      (submitStep s pid c a t).1.pending pid = none ∧
      (submitStep s pid c a t).2 = msgEdited) ∧
    (∀ (s : BotState) (pid : Str) (c a t : Str), s.pending pid = none →
      submitStep s pid c a t = (s, msgNotFound)) := by
  refine ⟨?_, ?_, ?_, ?_, ?_⟩
  · intro m pid d
    simp [storeInsert]
  · intro s pid p h
    refine ⟨?_, ?_, ?_, ?_⟩ <;> simp [confirmStep, h, saveRow, storeRemove]
  · intro s pid h
    simp [confirmStep, h]
  · intro s pid p c a t h
    refine ⟨?_, ?_, ?_⟩ <;> simp [submitStep, h, saveRow, storeRemove]
  · intro s pid c a t h
    simp [submitStep, h]

/-- Demonstration draft for the lifecycle witness. -/
def demoPending : Pending :=
  ⟨str "id1", str "id1.jpg", str "카페", some 12345, none, str "ocr text"⟩

/-- Demonstration state: one live draft under `"id1"`, empty ledger. -/
def demoState : BotState :=
  ⟨storeInsert (fun _ => none) (str "id1") demoPending, [], []⟩

/-- Witness for C7: a concrete create/confirm/confirm-again run — lookup
succeeds, one row is written, the second confirm is an expired no-op. -/
theorem draft_lifecycle_witness :
    storeInsert (fun _ => none) (str "id1") demoPending (str "id1") =
        some demoPending ∧
      (confirmStep demoState (str "id1")).1.ledger = [rowOf demoPending] ∧
      confirmStep (confirmStep demoState (str "id1")).1 (str "id1") =
        ((confirmStep demoState (str "id1")).1, msgExpired) :=
  ⟨draft_lifecycle.1 (fun _ => none) (str "id1") demoPending,
    (draft_lifecycle.2.1 demoState (str "id1") demoPending rfl).1,
    draft_lifecycle.2.2.1 (confirmStep demoState (str "id1")).1 (str "id1")
      rfl⟩

/-- C8: an invalid correction value never rejects the submission: on a live
draft, a digit-free amount field keeps the previous amount, an unparsable
timestamp field keeps the previous timestamp, while the category correction
and the persist-and-evict still take effect. -/
theorem correction_lenient (s : BotState) (pid : Str) (p : Pending)
    (catIn amtIn dtIn : Str) (h : s.pending pid = some p) :
    (submitStep s pid catIn amtIn dtIn).1.ledger =
      s.ledger ++ [rowOf (correctedDraft p catIn amtIn dtIn)] ∧
    (digitsOnly amtIn = [] →
      (correctedDraft p catIn amtIn dtIn).amount = p.amount) ∧
    (strptimeYmdHms (stripStr dtIn) = none →
      (correctedDraft p catIn amtIn dtIn).when = p.when) ∧
    (correctedDraft p catIn amtIn dtIn).category =
      (if stripStr catIn = [] then str "기타" else stripStr catIn) ∧
    (submitStep s pid catIn amtIn dtIn).1.pending pid = none ∧
    (submitStep s pid catIn amtIn dtIn).2 = msgEdited := by
  refine ⟨?_, ?_, ?_, ?_, ?_, ?_⟩
  · simp [submitStep, h, saveRow]
  · intro ha
    simp only [correctedDraft, ha]
    cases p.amount <;> rfl
  · intro hd
    by_cases hdt : dtIn = []
    · simp only [correctedDraft, hdt]
      cases p.when <;> rfl
    · by_cases hstrip : stripStr dtIn = []
      · simp only [correctedDraft, if_neg hdt, hstrip]
        cases p.when <;> rfl
      · simp only [correctedDraft, if_neg hdt, if_neg hstrip, hd]
        cases p.when <;> rfl
  · by_cases hc : stripStr catIn = []
    · simp [correctedDraft, hc]
    · simp [correctedDraft, hc]
  · simp [submitStep, h, storeRemove]
  · simp [submitStep, h]

/-- Witness for C8: a live draft corrected with a digit-free amount and a
malformed timestamp keeps both previous values and is still persisted. -/
theorem correction_lenient_witness :
    (correctedDraft demoPending (str "식당") (str "abc") (str "2025-99-99")).amount
        = some 12345 ∧
      (correctedDraft demoPending (str "식당") (str "abc")
        (str "2025-99-99")).when = none ∧
      (correctedDraft demoPending (str "식당") (str "abc")
        (str "2025-99-99")).category = str "식당" ∧
      (submitStep demoState (str "id1") (str "식당") (str "abc")
        (str "2025-99-99")).1.pending (str "id1") = none := by
  have h := correction_lenient demoState (str "id1") demoPending (str "식당")
    (str "abc") (str "2025-99-99") rfl
  exact ⟨h.2.1 (by decide), h.2.2.1 (by decide), by decide, h.2.2.2.2.1⟩

/-! ### Claim theorems: draft filename -/

/-- Counterexample to C9: on attachment name `"receipt.png"` the stored
draft filename is the generated id with the extension appended, not the
original attachment name. -/
theorem draft_filename_counterexample :
    (draftOf (str "a1b2c3") (str "receipt.png") (str "기타") none none
        (str "")).filename = str "a1b2c3.png" ∧
      (draftOf (str "a1b2c3") (str "receipt.png") (str "기타") none none
        (str "")).filename ≠ str "receipt.png" := by
  constructor
  · decide
  · decide

/-- C9 (amended): the draft's `filename` (and hence the ledger row's
filename column) is the generated id with the attachment name's extension,
lowercased, appended — falling back to `".jpg"` when the attachment name has
no extension. -/
theorem draft_filename_amended (pid name cat : Str) (amt : Option Nat)
    (when : Option DateTime) (txt : Str) :
    (splitextExt name = [] →
      (draftOf pid name cat amt when txt).filename = pid ++ str ".jpg") ∧
    (splitextExt name ≠ [] →
      (draftOf pid name cat amt when txt).filename =
        pid ++ lowerAll (splitextExt name)) ∧
    (rowOf (draftOf pid name cat amt when txt)).filename =
      (draftOf pid name cat amt when txt).filename := by
  refine ⟨?_, ?_, rfl⟩
  · intro h
    simp [draftOf, mkFname, h, lowerAll]
  · intro h
    have h2 : lowerAll (splitextExt name) ≠ [] := by
      simpa [lowerAll] using h
    simp [draftOf, mkFname, h2]

/-- Witness for C9 (amended): `"receipt.PNG"` keeps its extension lowercased,
`"noext"` falls back to `".jpg"`. -/
theorem draft_filename_amended_witness :
    (draftOf (str "xyz") (str "receipt.PNG") (str "기타") none none
        (str "")).filename = str "xyz" ++ lowerAll (splitextExt (str "receipt.PNG")) ∧
      (draftOf (str "xyz") (str "noext") (str "기타") none none
        (str "")).filename = str "xyz" ++ str ".jpg" :=
  ⟨(draft_filename_amended (str "xyz") (str "receipt.PNG") (str "기타") none
      none (str "")).2.1 (by decide),
    (draft_filename_amended (str "xyz") (str "noext") (str "기타") none none
      (str "")).1 (by decide)⟩

end Receipt
